import Mathlib

/-
Verification development for the vending-machine controller in
src/Vending_Machine_SA_4.py.  The finite-state machine core (classes
VendingMachine, WaitingState, AddCoinsState, DeliverProductState,
CountChangeState) is embedded shallowly: machine fields become a record,
each state's on_entry/update become functions from machine and event
string to machine and emitted display messages, and Python ints become
Lean Int.  Events are the raw strings the program dispatches.
-/

/- The four product ids of VendingMachine.PRODUCTS (lines 103-107). -/
inductive Product
  | diode
  | transistor
  | cap
  | res
deriving DecidableEq

/- Dictionary key of each product in PRODUCTS / INITIAL_STOCK / stock. -/
def productKey : Product → String
  | .diode => "diode"
  | .transistor => "transistor"
  | .cap => "cap"
  | .res => "res"

/- Price in cents, PRODUCTS[k][1] (lines 103-107). -/
def productPrice : Product → Int
  | .diode => 75
  | .transistor => 150
  | .cap => 50
  | .res => 5

/- Membership test `product_key in machine.PRODUCTS` together with the
   key lookup: some p exactly when the string is a product key. -/
def parseProduct (s : String) : Option Product :=
  if s = "diode" then some Product.diode
  else if s = "transistor" then some Product.transistor
  else if s = "cap" then some Product.cap
  else if s = "res" then some Product.res
  else none

/- Coin dictionary COINS (lines 111-114): `event in machine.COINS`
   together with COINS[event][1]. -/
def coinValue? (s : String) : Option Int :=
  if s = "5" then some 5
  else if s = "10" then some 10
  else if s = "25" then some 25
  else if s = "100" then some 100
  else if s = "200" then some 200
  else none

/- self.coin_values (lines 124-127): the COINS values sorted descending. -/
def coin_values : List Int := [200, 100, 25, 10, 5]

/- `'_' in machine.event` (line 212). -/
def hasUnderscore (s : String) : Bool := s.data.contains '_'

/- `machine.event.rsplit('_', 1)[0]` (line 213): the characters before
   the last underscore of the string. -/
def rsplitKey (s : String) : String :=
  String.mk (((s.data.reverse.dropWhile (fun c => c != '_')).drop 1).reverse)

/- The per-product stock dictionary machine.stock (line 122). -/
structure Stock where
  diode : Int
  transistor : Int
  cap : Int
  res : Int
deriving DecidableEq

def Stock.get (s : Stock) : Product → Int
  | .diode => s.diode
  | .transistor => s.transistor
  | .cap => s.cap
  | .res => s.res

def Stock.set (s : Stock) : Product → Int → Stock
  | .diode, n => { s with diode := n }
  | .transistor, n => { s with transistor := n }
  | .cap, n => { s with cap := n }
  | .res, n => { s with res := n }

/- The _NAME of each registered state object (lines 185, 198, 231, 272). -/
inductive StateName
  | waiting
  | add_coins
  | deliver_product
  | count_change
deriving DecidableEq

/- Display/command output printed by the states, one constructor per
   print site, carrying the same data the f-strings interpolate. -/
inductive Msg
  | waitingPrompt
  | balancePrompt (amountCents : Int)
  | outOfStockSelect (p : Product)
  | insufficientFunds (priceCents : Int)
  | dispensing (p : Product)
  | dispensed (p : Product) (remainingStock : Int)
  | outOfStockError (key : String)
  | dispensingChange
  | changeDue (cents : Int)
  | returningCoin (v : Int)
deriving DecidableEq

/- Machine state: the active state object's name plus the mutable fields
   amount, change_due and stock of VendingMachine (lines 116-122). -/
structure VendingMachine where
  stateName : StateName
  amount : Int
  change_due : Int
  stock : Stock
deriving DecidableEq

/- DeliverProductState.on_entry (lines 233-259).  product_key is
   machine.event at call time; stock.get(product_key, 0) defaults to 0
   for a non-product key, which lands in the out-of-stock branch. -/
def deliverEntry (m : VendingMachine) (pk : String) : VendingMachine × List Msg :=
  match parseProduct pk with
  | some p =>
    if 0 < m.stock.get p then
      ({ m with stateName := StateName.deliver_product,
                stock := m.stock.set p (m.stock.get p - 1),
                change_due := m.amount - productPrice p,
                amount := 0 },
       [Msg.dispensing p, Msg.dispensed p (m.stock.get p - 1)])
    else ({ m with stateName := StateName.deliver_product }, [Msg.outOfStockError pk])
  | none => ({ m with stateName := StateName.deliver_product }, [Msg.outOfStockError pk])

/- go_to_state (lines 151-157): every on_exit is a no-op, so a
   transition is the target state's on_entry.  The event string is
   machine.event at the moment of the call (read only by
   DeliverProductState.on_entry). -/
def enter (m : VendingMachine) : StateName → String → VendingMachine × List Msg
  | StateName.waiting, _ => ({ m with stateName := StateName.waiting }, [Msg.waitingPrompt])
  | StateName.add_coins, _ =>
    ({ m with stateName := StateName.add_coins }, [Msg.balancePrompt m.amount])
  | StateName.deliver_product, ev => deliverEntry m ev
  | StateName.count_change, _ =>
    ({ m with stateName := StateName.count_change },
     [Msg.dispensingChange, Msg.changeDue m.change_due])

/- The inner while loop of CountChangeState.update (lines 284-287):
   `while remaining_change >= coin_value: remaining_change -= coin_value`,
   emitting one coin per iteration.  Structural fuel (enough iterations
   for any start value) stands in for the loop; drainCoin_eq below shows
   the result satisfies exactly the loop's unfolding. -/
def drainAux (v : Int) : Nat → Int → List Int × Int
  | 0, r => ([], r)
  | fuel + 1, r =>
    if 0 < v ∧ v ≤ r then
      let p := drainAux v fuel (r - v)
      (v :: p.1, p.2)
    else ([], r)

def drainCoin (v r : Int) : List Int × Int := drainAux v r.toNat r

/- The outer for loop of CountChangeState.update (lines 283-287):
   iterate the denominations in order, draining each in turn. -/
def greedyReturn : List Int → Int → List Int × Int
  | [], r => ([], r)
  | v :: vs, r =>
    let p := drainCoin v r
    let q := greedyReturn vs p.2
    (p.1 ++ q.1, q.2)

/- WaitingState.update (lines 189-195): a coin key adds its value and
   transitions to add_coins; RETURN only clears the event; anything else
   is ignored. -/
def waitingUpdate (m : VendingMachine) (e : String) : VendingMachine × List Msg :=
  match coinValue? e with
  | some v => enter { m with amount := m.amount + v } StateName.add_coins e
  | none => (m, [])

/- AddCoinsState.update (lines 202-228). -/
def addCoinsUpdate (m : VendingMachine) (e : String) : VendingMachine × List Msg :=
  if e = "RETURN" then
    enter { m with change_due := m.amount, amount := 0 } StateName.count_change e
  else
    match coinValue? e with
    | some v => ({ m with amount := m.amount + v }, [Msg.balancePrompt (m.amount + v)])
    | none =>
      if hasUnderscore e then
        match parseProduct (rsplitKey e) with
        | some p =>
          if m.stock.get p ≤ 0 then (m, [Msg.outOfStockSelect p])
          else if productPrice p ≤ m.amount then enter m StateName.deliver_product (productKey p)
          else (m, [Msg.insufficientFunds (productPrice p)])
        | none => (m, [])
      else (m, [])

/- DeliverProductState.update (lines 265-269). -/
def deliverUpdate (m : VendingMachine) : VendingMachine × List Msg :=
  if 0 < m.change_due then enter m StateName.count_change ""
  else enter m StateName.waiting ""

/- CountChangeState.update (lines 280-292): run the greedy loop over
   coin_values, zero change_due, and go to waiting only when the
   remaining amount reached exactly 0. -/
def countChangeUpdate (m : VendingMachine) : VendingMachine × List Msg :=
  let g := greedyReturn coin_values m.change_due
  let m1 := { m with change_due := 0 }
  if g.2 = 0 then
    let r := enter m1 StateName.waiting ""
    (r.1, g.1.map Msg.returningCoin ++ r.2)
  else (m1, g.1.map Msg.returningCoin)

/- VendingMachine.update (lines 159-161): dispatch one event to the
   active state's update.  Returns the new machine and the messages
   printed during the tick. -/
def stepM (m : VendingMachine) (e : String) : VendingMachine × List Msg :=
  match m.stateName with
  | StateName.waiting => waitingUpdate m e
  | StateName.add_coins => addCoinsUpdate m e
  | StateName.deliver_product => deliverUpdate m
  | StateName.count_change => countChangeUpdate m

def step (m : VendingMachine) (e : String) : VendingMachine := (stepM m e).1

def stepOut (m : VendingMachine) (e : String) : List Msg := (stepM m e).2

/- The machine right after __init__ plus the startup go_to_state to
   waiting (lines 116-122, 348-353): INITIAL_STOCK, zero balances. -/
def initMachine : VendingMachine :=
  { stateName := StateName.waiting, amount := 0, change_due := 0,
    stock := { diode := 3, transistor := 2, cap := 4, res := 5 } }

def runSteps (m : VendingMachine) (es : List String) : VendingMachine :=
  es.foldl step m

/- Machines arising from the initial machine by dispatching any
   sequence of event strings, one per tick. -/
inductive Reachable : VendingMachine → Prop
  | init : Reachable initMachine
  | next {m : VendingMachine} (e : String) : Reachable m → Reachable (step m e)

/- State registry of VendingMachine (lines 148-157).  A Python dict
   keyed by state name: assignment replaces the value at an existing key
   in place, lookup returns the first (unique) matching key.  The tag
   distinguishes distinct state objects with equal names. -/
structure NamedState where
  name : String
  tag : Nat
deriving DecidableEq

def statesInsert (d : List (String × NamedState)) (k : String) (v : NamedState) :
    List (String × NamedState) :=
  match d with
  | [] => [(k, v)]
  | (k2, v2) :: rest => if k = k2 then (k, v) :: rest else (k2, v2) :: statesInsert rest k v

def statesGet? (d : List (String × NamedState)) (k : String) : Option NamedState :=
  match d with
  | [] => none
  | (k2, v2) :: rest => if k = k2 then some v2 else statesGet? rest k

/- VendingMachine.add_state (lines 148-149): self.states[state.name] = state. -/
def add_state (d : List (String × NamedState)) (s : NamedState) : List (String × NamedState) :=
  statesInsert d s.name s

/- The emitted-coin list of one denomination's while loop sums, together
   with the remaining amount, to the amount the loop started from. -/
theorem drainAux_sum (v : Int) : ∀ (f : Nat) (r : Int),
    (drainAux v f r).1.sum + (drainAux v f r).2 = r := by
  intro f
  induction f with
  | zero => intro r; simp [drainAux]
  | succ n ih =>
    intro r
    simp only [drainAux]
    split
    · simp only [List.sum_cons]
      have h := ih (r - v)
      omega
    · simp

theorem drainAux_rem_nonneg (v : Int) : ∀ (f : Nat) (r : Int),
    0 ≤ r → 0 ≤ (drainAux v f r).2 := by
  intro f
  induction f with
  | zero => intro r h; simpa [drainAux] using h
  | succ n ih =>
    intro r h
    simp only [drainAux]
    split
    · exact ih (r - v) (by omega)
    · simpa using h

theorem drainAux_rem_lt (v : Int) (hv : 0 < v) : ∀ (f : Nat) (r : Int),
    r.toNat ≤ f → (drainAux v f r).2 < v := by
  intro f
  induction f with
  | zero => intro r h; simp only [drainAux]; omega
  | succ n ih =>
    intro r h
    simp only [drainAux]
    split
    · exact ih (r - v) (by omega)
    · omega

theorem drainAux_rem_dvd (v d : Int) (hdv : d ∣ v) : ∀ (f : Nat) (r : Int),
    d ∣ r → d ∣ (drainAux v f r).2 := by
  intro f
  induction f with
  | zero => intro r h; simpa [drainAux] using h
  | succ n ih =>
    intro r h
    simp only [drainAux]
    split
    · exact ih (r - v) (Int.dvd_sub h hdv)
    · simpa using h

theorem drainCoin_sum (v r : Int) : (drainCoin v r).1.sum + (drainCoin v r).2 = r :=
  drainAux_sum v r.toNat r

theorem drainCoin_rem_nonneg (v r : Int) (h : 0 ≤ r) : 0 ≤ (drainCoin v r).2 :=
  drainAux_rem_nonneg v r.toNat r h

theorem drainCoin_rem_lt (v r : Int) (hv : 0 < v) : (drainCoin v r).2 < v :=
  drainAux_rem_lt v hv r.toNat r (le_refl _)

theorem drainCoin_rem_dvd (v d r : Int) (hdv : d ∣ v) (h : d ∣ r) :
    d ∣ (drainCoin v r).2 :=
  drainAux_rem_dvd v d hdv r.toNat r h

theorem greedyReturn_sum : ∀ (l : List Int) (r : Int),
    (greedyReturn l r).1.sum + (greedyReturn l r).2 = r := by
  intro l
  induction l with
  | nil => intro r; simp [greedyReturn]
  | cons v vs ih =>
    intro r
    simp only [greedyReturn, List.sum_append]
    have h1 := drainCoin_sum v r
    have h2 := ih (drainCoin v r).2
    omega

theorem greedy_rem_zero (r : Int) (h0 : 0 ≤ r) (h5 : (5:Int) ∣ r) :
    (greedyReturn coin_values r).2 = 0 := by
  have e : (greedyReturn coin_values r).2 =
      (drainCoin 5 ((drainCoin 10 ((drainCoin 25 ((drainCoin 100 ((drainCoin 200 r).2)).2)).2)).2)).2 := by
    simp [greedyReturn, coin_values]
  set r1 := (drainCoin 200 r).2 with hr1
  have h1 : 0 ≤ r1 ∧ (5:Int) ∣ r1 :=
    ⟨drainCoin_rem_nonneg _ _ h0, drainCoin_rem_dvd _ _ _ (by decide) h5⟩
  set r2 := (drainCoin 100 r1).2 with hr2
  have h2 : 0 ≤ r2 ∧ (5:Int) ∣ r2 :=
    ⟨drainCoin_rem_nonneg _ _ h1.1, drainCoin_rem_dvd _ _ _ (by decide) h1.2⟩
  set r3 := (drainCoin 25 r2).2 with hr3
  have h3 : 0 ≤ r3 ∧ (5:Int) ∣ r3 :=
    ⟨drainCoin_rem_nonneg _ _ h2.1, drainCoin_rem_dvd _ _ _ (by decide) h2.2⟩
  set r4 := (drainCoin 10 r3).2 with hr4
  have h4 : 0 ≤ r4 ∧ (5:Int) ∣ r4 :=
    ⟨drainCoin_rem_nonneg _ _ h3.1, drainCoin_rem_dvd _ _ _ (by decide) h3.2⟩
  have h5a : 0 ≤ (drainCoin 5 r4).2 := drainCoin_rem_nonneg _ _ h4.1
  have h5b : (drainCoin 5 r4).2 < 5 := drainCoin_rem_lt _ _ (by decide)
  have h5c : (5:Int) ∣ (drainCoin 5 r4).2 := drainCoin_rem_dvd _ _ _ (by decide) h4.2
  rw [e]
  omega

theorem coinValue_spec (e : String) (v : Int) (h : coinValue? e = some v) :
    0 < v ∧ (5:Int) ∣ v := by
  unfold coinValue? at h
  split_ifs at h <;> simp_all <;> omega

theorem productPrice_pos_dvd (p : Product) :
    0 < productPrice p ∧ (5:Int) ∣ productPrice p := by
  cases p <;> simp [productPrice] <;> decide

theorem parseProduct_productKey (p : Product) :
    parseProduct (productKey p) = some p := by
  cases p <;> decide

theorem Stock.get_set_same (s : Stock) (p : Product) (n : Int) :
    (s.set p n).get p = n := by
  cases p <;> rfl

theorem Stock.get_set_other (s : Stock) (p q : Product) (n : Int) (h : q ≠ p) :
    (s.set p n).get q = s.get q := by
  cases p <;> cases q <;> first | rfl | exact absurd rfl h

/- The global machine invariant maintained by every dispatched event. -/
def MachInv (m : VendingMachine) : Prop :=
  0 ≤ m.amount ∧ (5:Int) ∣ m.amount ∧
  0 ≤ m.change_due ∧ (5:Int) ∣ m.change_due ∧
  (∀ p : Product, 0 ≤ m.stock.get p) ∧
  ((m.stateName = StateName.waiting ∨ m.stateName = StateName.add_coins) →
    m.change_due = 0) ∧
  (m.stateName = StateName.deliver_product → m.amount = 0)

theorem machInv_init : MachInv initMachine := by
  refine ⟨by decide, by decide, by decide, by decide, ?_, by decide, by decide⟩
  intro p; cases p <;> decide

theorem machInv_step (m : VendingMachine) (e : String) (h : MachInv m) : MachInv (step m e) := by
  obtain ⟨ha0, ha5, hc0, hc5, hst, hwz, hdz⟩ := h
  unfold step stepM
  cases hsn : m.stateName with
  | waiting =>
    unfold waitingUpdate
    cases hcv : coinValue? e with
    | none => exact ⟨ha0, ha5, hc0, hc5, hst, fun _ => hwz (Or.inl hsn), by simp [hsn]⟩
    | some v =>
      have hv := coinValue_spec e v hcv
      simp only [enter]
      refine ⟨by simp; omega, by simp; exact Int.dvd_add ha5 hv.2, by simpa using hc0,
        by simpa using hc5, by simpa using hst, ?_, by simp⟩
      intro _
      simpa using hwz (Or.inl hsn)
  | add_coins =>
    unfold addCoinsUpdate
    by_cases hr : e = "RETURN"
    · simp only [hr, if_pos rfl, enter]
      exact ⟨by simp, by simp, by simpa using ha0, by simpa using ha5,
        by simpa using hst, by simp, by simp⟩
    · simp only [if_neg hr]
      cases hcv : coinValue? e with
      | some v =>
        have hv := coinValue_spec e v hcv
        refine ⟨by simp; omega, by simp; exact Int.dvd_add ha5 hv.2, by simpa using hc0,
          by simpa using hc5, by simpa using hst, ?_, ?_⟩
        · intro _; simpa using hwz (Or.inr hsn)
        · simp [hsn]
      | none =>
        by_cases hu : hasUnderscore e = true
        · simp only [hu, if_pos]
          cases hpp : parseProduct (rsplitKey e) with
          | none =>
            exact ⟨ha0, ha5, hc0, hc5, hst, fun _ => hwz (Or.inr hsn), by simp [hsn]⟩
          | some p =>
            by_cases hs0 : m.stock.get p ≤ 0
            · simp only [if_pos hs0]
              exact ⟨ha0, ha5, hc0, hc5, hst, fun _ => hwz (Or.inr hsn), by simp [hsn]⟩
            · simp only [if_neg hs0]
              by_cases hpr : productPrice p ≤ m.amount
              · simp only [if_pos hpr, enter, deliverEntry, parseProduct_productKey]
                have hsp : 0 < m.stock.get p := by omega
                simp only [if_pos hsp]
                refine ⟨by simp, by simp, by simp; omega,
                  by simp; exact Int.dvd_sub ha5 (productPrice_pos_dvd p).2, ?_, by simp, by simp⟩
                intro q
                by_cases hq : q = p
                · subst hq; simp [Stock.get_set_same]; omega
                · simp [Stock.get_set_other _ _ _ _ hq]; exact hst q
              · simp only [if_neg hpr]
                exact ⟨ha0, ha5, hc0, hc5, hst, fun _ => hwz (Or.inr hsn), by simp [hsn]⟩
        · simp only [if_neg hu]
          exact ⟨ha0, ha5, hc0, hc5, hst, fun _ => hwz (Or.inr hsn), by simp [hsn]⟩
  | deliver_product =>
    unfold deliverUpdate
    by_cases hcd : 0 < m.change_due
    · simp only [if_pos hcd, enter]
      exact ⟨by simpa using ha0, by simpa using ha5, by simpa using hc0, by simpa using hc5,
        by simpa using hst, by simp, by simp⟩
    · simp only [if_neg hcd, enter]
      refine ⟨by simpa using ha0, by simpa using ha5, by simpa using hc0, by simpa using hc5,
        by simpa using hst, ?_, by simp⟩
      intro _
      simp only []
      omega
  | count_change =>
    unfold countChangeUpdate
    simp only []
    split
    · simp only [enter]
      exact ⟨by simpa using ha0, by simpa using ha5, by simp, by simp,
        by simpa using hst, by simp, by simp⟩
    · exact ⟨by simpa using ha0, by simpa using ha5, by simp, by simp,
        by simpa using hst, by simp [hsn], by simp [hsn]⟩

theorem machInv_reachable (m : VendingMachine) (h : Reachable m) : MachInv m := by
  induction h with
  | init => exact machInv_init
  | next e _ ih => exact machInv_step _ e ih

/-- C1: for every change amount recorded at entry to the change-return
phase that is a non-negative multiple of 5, the greedy decomposition of
CountChangeState.update over the descending denominations coin_values
emits coins summing exactly to that amount and drives the remaining
amount to 0. -/
theorem change_decomposition_exact (n : Int) (h0 : 0 ≤ n) (h5 : (5:Int) ∣ n) :
    (greedyReturn coin_values n).1.sum = n ∧ (greedyReturn coin_values n).2 = 0 := by
  have hr := greedy_rem_zero n h0 h5
  have hs := greedyReturn_sum coin_values n
  exact ⟨by omega, hr⟩

theorem change_decomposition_exact_witness :
    (0:Int) ≤ 140 ∧ (5:Int) ∣ 140 ∧
    ((greedyReturn coin_values 140).1.sum = 140 ∧ (greedyReturn coin_values 140).2 = 0) :=
  ⟨by decide, by decide, change_decomposition_exact 140 (by decide) (by decide)⟩

/-- C6: for every change amount held at entry to count_change in a
reachable execution, one update of CountChangeState zeroes change_due
and transitions the machine to waiting. -/
theorem count_change_single_update (m : VendingMachine) (e : String)
    (hR : Reachable m) (hs : m.stateName = StateName.count_change) :
    (step m e).change_due = 0 ∧ (step m e).stateName = StateName.waiting := by
  obtain ⟨_, _, hc0, hc5, _, _, _⟩ := machInv_reachable m hR
  have hz := greedy_rem_zero m.change_due hc0 hc5
  unfold step stepM
  rw [hs]
  unfold countChangeUpdate
  simp [hz, enter]

theorem count_change_single_update_witness :
    Reachable (step (step initMachine "25") "RETURN") ∧
    (step (step initMachine "25") "RETURN").stateName = StateName.count_change ∧
    ((step (step (step initMachine "25") "RETURN") "").change_due = 0 ∧
     (step (step (step initMachine "25") "RETURN") "").stateName = StateName.waiting) :=
  ⟨Reachable.next "RETURN" (Reachable.next "25" Reachable.init), by decide,
   count_change_single_update _ ""
     (Reachable.next "RETURN" (Reachable.next "25" Reachable.init)) (by decide)⟩

/-- C4: in every reachable machine state, the balance, the change due
and every product's stock count are non-negative. -/
theorem nonnegative_reachable (m : VendingMachine) (h : Reachable m) :
    0 ≤ m.amount ∧ 0 ≤ m.change_due ∧ ∀ p : Product, 0 ≤ m.stock.get p := by
  obtain ⟨ha0, _, hc0, _, hst, _, _⟩ := machInv_reachable m h
  exact ⟨ha0, hc0, hst⟩

theorem nonnegative_reachable_witness :
    0 ≤ initMachine.amount ∧ 0 ≤ initMachine.change_due ∧
    ∀ p : Product, 0 ≤ initMachine.stock.get p :=
  nonnegative_reachable initMachine Reachable.init

/-- C2 counterexample: paying the exact price (three 25-cent coins for
the 75-cent diode) transitions out of add_coins into deliver_product
with balance and change due both 0, so exactly-one-positive fails. -/
theorem exactly_one_positive_counterexample :
    Reachable (step (runSteps initMachine ["25", "25", "25"]) "diode_0") ∧
    ((runSteps initMachine ["25", "25", "25"]).stateName = StateName.add_coins ∧
     (step (runSteps initMachine ["25", "25", "25"]) "diode_0").stateName =
       StateName.deliver_product ∧
     ¬((0 < (step (runSteps initMachine ["25", "25", "25"]) "diode_0").amount ∧
         ¬0 < (step (runSteps initMachine ["25", "25", "25"]) "diode_0").change_due) ∨
       (¬0 < (step (runSteps initMachine ["25", "25", "25"]) "diode_0").amount ∧
         0 < (step (runSteps initMachine ["25", "25", "25"]) "diode_0").change_due))) :=
  ⟨Reachable.next "diode_0"
     (Reachable.next "25" (Reachable.next "25" (Reachable.next "25" Reachable.init))),
   by decide⟩

/-- C2 (amended): immediately after any transition out of add_coins or
deliver_product in a reachable execution, at most one of balance and
change due is positive. -/
theorem at_most_one_positive_after_exit (m : VendingMachine) (e : String)
    (hR : Reachable m)
    (hs : m.stateName = StateName.add_coins ∨ m.stateName = StateName.deliver_product)
    (ht : (step m e).stateName ≠ m.stateName) :
    ¬(0 < (step m e).amount ∧ 0 < (step m e).change_due) := by
  obtain ⟨ha0, ha5, hc0, hc5, hst, hwz, hdz⟩ := machInv_reachable m hR
  cases hs with
  | inl hadd =>
    have hcd0 : m.change_due = 0 := hwz (Or.inr hadd)
    by_cases hr : e = "RETURN"
    · simp [step, stepM, hadd, addCoinsUpdate, hr, enter]
    · cases hcv : coinValue? e with
      | some v =>
        exact absurd (by simp [step, stepM, hadd, addCoinsUpdate, hr, hcv]) ht
      | none =>
        by_cases hu : hasUnderscore e = true
        · cases hpp : parseProduct (rsplitKey e) with
          | none =>
            exact absurd (by simp [step, stepM, hadd, addCoinsUpdate, hr, hcv, hu, hpp]) ht
          | some p =>
            by_cases hs0 : m.stock.get p ≤ 0
            · exact absurd
                (by simp [step, stepM, hadd, addCoinsUpdate, hr, hcv, hu, hpp, hs0]) ht
            · by_cases hpr : productPrice p ≤ m.amount
              · have hsp : 0 < m.stock.get p := by omega
                simp [step, stepM, hadd, addCoinsUpdate, hr, hcv, hu, hpp, hs0, hpr,
                  enter, deliverEntry, parseProduct_productKey, hsp]
              · exact absurd
                  (by simp [step, stepM, hadd, addCoinsUpdate, hr, hcv, hu, hpp, hs0, hpr]) ht
        · exact absurd (by simp [step, stepM, hadd, addCoinsUpdate, hr, hcv, hu]) ht
  | inr hdel =>
    have ham : m.amount = 0 := hdz hdel
    by_cases hcd : 0 < m.change_due
    · simp [step, stepM, hdel, deliverUpdate, hcd, enter, ham]
    · simp [step, stepM, hdel, deliverUpdate, hcd, enter, ham]

theorem at_most_one_positive_after_exit_witness :
    Reachable (step initMachine "25") ∧
    (step (step initMachine "25") "RETURN").stateName ≠
      (step initMachine "25").stateName ∧
    ¬(0 < (step (step initMachine "25") "RETURN").amount ∧
      0 < (step (step initMachine "25") "RETURN").change_due) :=
  ⟨Reachable.next "25" Reachable.init, by decide,
   at_most_one_positive_after_exit (step initMachine "25") "RETURN"
     (Reachable.next "25" Reachable.init) (by decide) (by decide)⟩

/- A machine holding a 100-cent balance whose resistor slot is empty;
   used to exercise the out-of-stock branches directly, the way the
   repository's unit tests force stock to 0. -/
def outOfStockMachine : VendingMachine :=
  { stateName := StateName.add_coins, amount := 100, change_due := 0,
    stock := { diode := 3, transistor := 2, cap := 4, res := 0 } }

/-- C3: evaluating DeliverProductState at its out-of-stock recheck branch
with a held balance of 100 cents: the code leaves amount at 100 and
change_due at 0 and transitions to waiting, never setting
change_due := balance, balance := 0 as the claim states. -/
theorem out_of_stock_entry_keeps_balance :
    (deliverEntry outOfStockMachine (productKey Product.res)).1.amount = 100 ∧
    (deliverEntry outOfStockMachine (productKey Product.res)).1.change_due = 0 ∧
    (deliverUpdate (deliverEntry outOfStockMachine (productKey Product.res)).1).1.stateName =
      StateName.waiting ∧
    (deliverUpdate (deliverEntry outOfStockMachine (productKey Product.res)).1).1.amount = 100 ∧
    (deliverUpdate (deliverEntry outOfStockMachine (productKey Product.res)).1).1.change_due = 0 := by
  decide

/-- C7: in add_coins, a selection of a known product that fails because
the product is out of stock, or in stock but unaffordable, emits exactly
one display message and leaves the machine record (state name, balance,
change due, stock) unchanged. -/
theorem add_coins_failed_selection (m : VendingMachine) (e : String) (p : Product)
    (hs : m.stateName = StateName.add_coins)
    (hr : e ≠ "RETURN") (hc : coinValue? e = none)
    (hu : hasUnderscore e = true) (hp : parseProduct (rsplitKey e) = some p)
    (hfail : m.stock.get p ≤ 0 ∨ (0 < m.stock.get p ∧ m.amount < productPrice p)) :
    step m e = m ∧
    (stepOut m e = [Msg.outOfStockSelect p] ∨
     stepOut m e = [Msg.insufficientFunds (productPrice p)]) := by
  cases hfail with
  | inl h0 =>
    constructor
    · simp [step, stepM, hs, addCoinsUpdate, hr, hc, hu, hp, h0]
    · left
      simp [stepOut, stepM, hs, addCoinsUpdate, hr, hc, hu, hp, h0]
  | inr hlt =>
    have hns : ¬m.stock.get p ≤ 0 := by omega
    have hnp : ¬productPrice p ≤ m.amount := by omega
    constructor
    · simp [step, stepM, hs, addCoinsUpdate, hr, hc, hu, hp, hns, hnp]
    · right
      simp [stepOut, stepM, hs, addCoinsUpdate, hr, hc, hu, hp, hns, hnp]

theorem add_coins_failed_selection_witness :
    outOfStockMachine.stock.get Product.res ≤ 0 ∧
    (step outOfStockMachine "res_0" = outOfStockMachine ∧
     (stepOut outOfStockMachine "res_0" = [Msg.outOfStockSelect Product.res] ∨
      stepOut outOfStockMachine "res_0" =
        [Msg.insufficientFunds (productPrice Product.res)])) :=
  ⟨by decide,
   add_coins_failed_selection outOfStockMachine "res_0" Product.res (by decide) (by decide)
     (by decide) (by decide) (by decide) (Or.inl (by decide))⟩

/-- C8 counterexample: a string that is no coin key, not RETURN and no
product selection is dropped with no report at all in add_coins, and in
the transient deliver_product state the same kind of event triggers the
pending transition, changing the state name. -/
theorem unknown_event_report_counterexample :
    (stepOut (step initMachine "25") "garbage" = [] ∧
     step (step initMachine "25") "garbage" = step initMachine "25") ∧
    (runSteps initMachine ["25", "25", "25", "diode_0"]).stateName =
      StateName.deliver_product ∧
    (step (runSteps initMachine ["25", "25", "25", "diode_0"]) "garbage").stateName =
      StateName.waiting := by
  decide

/-- C8 (amended): in the waiting and add_coins states, an event string
that is no coin key, not RETURN and does not parse to a known product id
is silently ignored: no message is emitted and the whole machine record
is unchanged. -/
theorem ignored_event_no_effect (m : VendingMachine) (e : String)
    (hs : m.stateName = StateName.waiting ∨ m.stateName = StateName.add_coins)
    (hc : coinValue? e = none) (hr : e ≠ "RETURN")
    (hp : hasUnderscore e = true → parseProduct (rsplitKey e) = none) :
    step m e = m ∧ stepOut m e = [] := by
  cases hs with
  | inl h =>
    constructor
    · simp [step, stepM, h, waitingUpdate, hc]
    · simp [stepOut, stepM, h, waitingUpdate, hc]
  | inr h =>
    by_cases hu : hasUnderscore e = true
    · constructor
      · simp [step, stepM, h, addCoinsUpdate, hr, hc, hu, hp hu]
      · simp [stepOut, stepM, h, addCoinsUpdate, hr, hc, hu, hp hu]
    · constructor
      · simp [step, stepM, h, addCoinsUpdate, hr, hc, hu]
      · simp [stepOut, stepM, h, addCoinsUpdate, hr, hc, hu]

theorem ignored_event_no_effect_witness :
    (step initMachine "25").stateName = StateName.add_coins ∧
    (step (step initMachine "25") "garbage" = step initMachine "25" ∧
     stepOut (step initMachine "25") "garbage" = []) :=
  ⟨by decide,
   ignored_event_no_effect (step initMachine "25") "garbage" (Or.inr (by decide))
     (by decide) (by decide) (by decide)⟩

/-- C9: the failed-dispense branch of DeliverProductState.on_entry
changes nothing but the active state name; with no change due, the
following update returns the machine to waiting still holding the prior
balance, change due and stock untouched. -/
theorem failed_dispense_frame (m : VendingMachine) (p : Product)
    (h0 : m.stock.get p ≤ 0) (hcd : m.change_due ≤ 0) :
    ((deliverEntry m (productKey p)).1.amount = m.amount ∧
     (deliverEntry m (productKey p)).1.change_due = m.change_due ∧
     (deliverEntry m (productKey p)).1.stock = m.stock ∧
     (deliverEntry m (productKey p)).1.stateName = StateName.deliver_product) ∧
    ((deliverUpdate (deliverEntry m (productKey p)).1).1.stateName = StateName.waiting ∧
     (deliverUpdate (deliverEntry m (productKey p)).1).1.amount = m.amount ∧
     (deliverUpdate (deliverEntry m (productKey p)).1).1.change_due = m.change_due ∧
     (deliverUpdate (deliverEntry m (productKey p)).1).1.stock = m.stock) := by
  have hns : ¬0 < m.stock.get p := by omega
  have he : (deliverEntry m (productKey p)).1 =
      { m with stateName := StateName.deliver_product } := by
    simp [deliverEntry, parseProduct_productKey, hns]
  rw [he]
  have hncd : ¬0 < ({ m with stateName := StateName.deliver_product } : VendingMachine).change_due := by
    simpa using hcd
  simp [deliverUpdate, hncd, enter]

theorem failed_dispense_frame_witness :
    outOfStockMachine.stock.get Product.res ≤ 0 ∧
    outOfStockMachine.change_due ≤ 0 ∧
    0 < outOfStockMachine.amount ∧
    (((deliverEntry outOfStockMachine (productKey Product.res)).1.amount =
        outOfStockMachine.amount ∧
      (deliverEntry outOfStockMachine (productKey Product.res)).1.change_due =
        outOfStockMachine.change_due ∧
      (deliverEntry outOfStockMachine (productKey Product.res)).1.stock =
        outOfStockMachine.stock ∧
      (deliverEntry outOfStockMachine (productKey Product.res)).1.stateName =
        StateName.deliver_product) ∧
     ((deliverUpdate (deliverEntry outOfStockMachine (productKey Product.res)).1).1.stateName =
        StateName.waiting ∧
      (deliverUpdate (deliverEntry outOfStockMachine (productKey Product.res)).1).1.amount =
        outOfStockMachine.amount ∧
      (deliverUpdate (deliverEntry outOfStockMachine (productKey Product.res)).1).1.change_due =
        outOfStockMachine.change_due ∧
      (deliverUpdate (deliverEntry outOfStockMachine (productKey Product.res)).1).1.stock =
        outOfStockMachine.stock)) :=
  ⟨by decide, by decide, by decide,
   failed_dispense_frame outOfStockMachine Product.res (by decide) (by decide)⟩

/-- C10: VendingMachine.add_state never rejects a duplicate name: the
dictionary assignment overwrites, and looking the name up afterwards
yields exactly the state object registered last. -/
theorem add_state_last_wins (d : List (String × NamedState)) (s : NamedState) :
    statesGet? (add_state d s) s.name = some s := by
  unfold add_state
  induction d with
  | nil => simp [statesInsert, statesGet?]
  | cons kv rest ih =>
    obtain ⟨k2, v2⟩ := kv
    by_cases hk : s.name = k2
    · simp [statesInsert, hk, statesGet?]
    · simp [statesInsert, hk, statesGet?, ih]

/- Total value of a list of coin events (0 for a non-coin string). -/
def sumCoins (es : List String) : Int :=
  (es.map (fun c => (coinValue? c).getD 0)).sum

/- The GUI button key of a product's first slot, e.g. "diode_0". -/
def selectEvent (p : Product) : String := productKey p ++ "_0"

theorem selectEvent_facts (p : Product) :
    selectEvent p ≠ "RETURN" ∧ coinValue? (selectEvent p) = none ∧
    hasUnderscore (selectEvent p) = true ∧ rsplitKey (selectEvent p) = productKey p := by
  cases p <;> decide

/- Dispatching a list of coin events in add_coins stays in add_coins,
   accumulates the coin values in amount and touches nothing else. -/
theorem coins_fold (es : List String) : ∀ m : VendingMachine,
    m.stateName = StateName.add_coins → (∀ c ∈ es, (coinValue? c).isSome) →
    (runSteps m es).stateName = StateName.add_coins ∧
    (runSteps m es).amount = m.amount + sumCoins es ∧
    (runSteps m es).change_due = m.change_due ∧
    (runSteps m es).stock = m.stock := by
  induction es with
  | nil => intro m hs _; simp [runSteps, sumCoins, hs]
  | cons c rest ih =>
    intro m hs hall
    have hc : (coinValue? c).isSome := hall c (by simp)
    obtain ⟨v, hv⟩ : ∃ v, coinValue? c = some v := Option.isSome_iff_exists.mp hc
    have hret : coinValue? "RETURN" = none := by decide
    have hcr : c ≠ "RETURN" := by
      intro hEq; rw [hEq, hret] at hv; exact Option.noConfusion hv
    have hstep : step m c = { m with amount := m.amount + v } := by
      simp [step, stepM, hs, addCoinsUpdate, hcr, hv]
    have hrun : runSteps m (c :: rest) = runSteps (step m c) rest := rfl
    rw [hrun, hstep]
    have ihh := ih { m with amount := m.amount + v } (by simpa using hs)
      (fun x hx => hall x (by simp [hx]))
    refine ⟨ihh.1, ?_, by simpa using ihh.2.2.1, by simpa using ihh.2.2.2⟩
    rw [ihh.2.1]
    simp [sumCoins, hv]
    ring

/-- C5: starting in waiting with balance 0, inserting coins that sum to
exactly a product's price and then selecting that in-stock product ends
(after the dispense tick) back in waiting with balance 0, change due 0,
that product's stock lower by exactly 1 and every other stock count
unchanged. -/
theorem exact_payment_round_trip (m : VendingMachine) (es : List String)
    (p : Product) (t : String)
    (hw : m.stateName = StateName.waiting) (ha : m.amount = 0)
    (hne : es ≠ []) (hall : ∀ c ∈ es, (coinValue? c).isSome)
    (hsum : sumCoins es = productPrice p)
    (hstk : 0 < m.stock.get p) :
    (runSteps m (es ++ [selectEvent p, t])).stateName = StateName.waiting ∧
    (runSteps m (es ++ [selectEvent p, t])).amount = 0 ∧
    (runSteps m (es ++ [selectEvent p, t])).change_due = 0 ∧
    (runSteps m (es ++ [selectEvent p, t])).stock.get p = m.stock.get p - 1 ∧
    ∀ q : Product, q ≠ p →
      (runSteps m (es ++ [selectEvent p, t])).stock.get q = m.stock.get q := by
  obtain ⟨c, rest, rfl⟩ : ∃ c rest, es = c :: rest := by
    cases es with
    | nil => exact absurd rfl hne
    | cons c rest => exact ⟨c, rest, rfl⟩
  obtain ⟨v, hv⟩ : ∃ v, coinValue? c = some v :=
    Option.isSome_iff_exists.mp (hall c (by simp))
  have hstep1 : step m c =
      { m with stateName := StateName.add_coins, amount := m.amount + v } := by
    simp [step, stepM, hw, waitingUpdate, hv, enter]
  have hM2 := coins_fold rest { m with stateName := StateName.add_coins, amount := m.amount + v }
    (by simp) (fun x hx => hall x (by simp [hx]))
  set M2 := runSteps { m with stateName := StateName.add_coins, amount := m.amount + v } rest
    with hM2def
  have hM2amt : M2.amount = productPrice p := by
    rw [hM2.2.1]
    simp only []
    rw [ha]
    have : sumCoins (c :: rest) = v + sumCoins rest := by simp [sumCoins, hv]
    omega
  have hM2stk : M2.stock = m.stock := by simpa using hM2.2.2.2
  obtain ⟨hsel1, hsel2, hsel3, hsel4⟩ := selectEvent_facts p
  have hns : ¬M2.stock.get p ≤ 0 := by rw [hM2stk]; omega
  have hpr : productPrice p ≤ M2.amount := by omega
  have hsp : 0 < M2.stock.get p := by omega
  have hstep3 : step M2 (selectEvent p) =
      { M2 with stateName := StateName.deliver_product,
                stock := M2.stock.set p (M2.stock.get p - 1),
                change_due := M2.amount - productPrice p,
                amount := 0 } := by
    simp [step, stepM, hM2.1, addCoinsUpdate, hsel1, hsel2, hsel3, hsel4,
      parseProduct_productKey, hns, hpr, enter, deliverEntry, hsp]
  have hcd3 : (step M2 (selectEvent p)).change_due = 0 := by
    rw [hstep3]; simp; omega
  have hstep4 : step (step M2 (selectEvent p)) t =
      { step M2 (selectEvent p) with stateName := StateName.waiting } := by
    rw [hstep3]
    have hncd2 : ¬(0:Int) < M2.amount - productPrice p := by omega
    simp [step, stepM, deliverUpdate, enter, hncd2]
  have hrunall : runSteps m ((c :: rest) ++ [selectEvent p, t]) =
      step (step M2 (selectEvent p)) t := by
    rw [hM2def]
    simp [runSteps, List.foldl_append, hstep1]
  rw [hrunall, hstep4]
  refine ⟨rfl, ?_, ?_, ?_, ?_⟩
  · rw [hstep3]
  · simpa using hcd3
  · rw [hstep3]
    simp [Stock.get_set_same, hM2stk]
  · intro q hq
    rw [hstep3]
    simp [Stock.get_set_other _ _ _ _ hq, hM2stk]

theorem exact_payment_round_trip_witness :
    sumCoins ["25", "25", "25"] = productPrice Product.diode ∧
    0 < initMachine.stock.get Product.diode ∧
    ((runSteps initMachine (["25", "25", "25"] ++ [selectEvent Product.diode, ""])).stateName =
       StateName.waiting ∧
     (runSteps initMachine (["25", "25", "25"] ++ [selectEvent Product.diode, ""])).amount = 0 ∧
     (runSteps initMachine (["25", "25", "25"] ++ [selectEvent Product.diode, ""])).change_due = 0 ∧
     (runSteps initMachine (["25", "25", "25"] ++ [selectEvent Product.diode, ""])).stock.get
       Product.diode = initMachine.stock.get Product.diode - 1 ∧
     ∀ q : Product, q ≠ Product.diode →
       (runSteps initMachine (["25", "25", "25"] ++ [selectEvent Product.diode, ""])).stock.get q =
         initMachine.stock.get q) :=
  ⟨by decide, by decide,
   exact_payment_round_trip initMachine ["25", "25", "25"] Product.diode "" (by decide)
     (by decide) (by decide) (by decide) (by decide) (by decide)⟩
